import Mathlib

set_option maxRecDepth 4000

/-!
Verification of the icon-preview extension (symbol/preview resolver, image
acquirer, cache store) against its natural-language specification.

The TypeScript source is shallowly embedded: string-processing code is
modelled over character lists, stateful filesystem and network effects are
passed explicitly as oracles, and fallible operations return Option/Except.
Regex-based scanning in the source is embedded as explicit scanning
functions mirroring the backtracking behaviour of each concrete pattern.
-/

namespace IconPreview

/-- ASCII double-quote character. -/
def dq : Char := Char.ofNat 34

/-- ASCII single-quote character. -/
def sq : Char := Char.ofNat 39

/-- Whitespace class of JS regex (ASCII fragment of \s). -/
def isWsChar (c : Char) : Bool :=
  c == ' ' || c == '\t' || c == '\n' || c == '\r' || c == Char.ofNat 11 || c == Char.ofNat 12

/-- Word-character class of JS regex \w, i.e. [A-Za-z0-9_]. -/
def isWordChar (c : Char) : Bool :=
  ('a' ≤ c && c ≤ 'z') || ('A' ≤ c && c ≤ 'Z') || ('0' ≤ c && c ≤ '9') || c == '_'

/-- Decimal digit class \d. -/
def isDigitChar (c : Char) : Bool := '0' ≤ c && c ≤ '9'

/-- ASCII uppercase letter test, numerically. -/
def isUpperA (c : Char) : Bool := 65 ≤ c.toNat && c.toNat ≤ 90

/-- Case-insensitive character comparison, as performed by a JS regex with
the i flag on ASCII input: equal code points, or equal up to the 32 offset
between uppercase and lowercase ASCII letters. -/
def ciEq (a b : Char) : Bool :=
  a.toNat == b.toNat || (isUpperA a && b.toNat == a.toNat + 32) ||
    (isUpperA b && a.toNat == b.toNat + 32)

/-- Exact literal-prefix test on character lists. -/
def startsL : List Char → List Char → Bool
  | [], _ => true
  | _ :: _, [] => false
  | p :: ps, c :: cs => p == c && startsL ps cs

/-- Case-insensitive literal-prefix test on character lists. -/
def ciStartsL : List Char → List Char → Bool
  | [], _ => true
  | _ :: _, [] => false
  | p :: ps, c :: cs => ciEq p c && ciStartsL ps cs

/-- Consume an exact literal from the front, returning the rest. -/
def dropLit (patt cs : List Char) : Option (List Char) :=
  if startsL patt cs then some (cs.drop patt.length) else none

/-- Consume a case-insensitive literal from the front, returning the rest. -/
def dropLitCi (patt cs : List Char) : Option (List Char) :=
  if ciStartsL patt cs then some (cs.drop patt.length) else none

/-- Substring test (the JS String.includes method). -/
def hasSubL (sub : List Char) : List Char → Bool
  | [] => startsL sub []
  | c :: cs => startsL sub (c :: cs) || hasSubL sub cs

/-- Case-insensitive substring test. -/
def ciHasSubL (sub : List Char) : List Char → Bool
  | [] => ciStartsL sub []
  | c :: cs => ciStartsL sub (c :: cs) || ciHasSubL sub cs

/-- Substring test on strings. -/
def hasSubStr (sub s : String) : Bool := hasSubL sub.data s.data

/-- Case-insensitive substring test on strings. -/
def ciHasSubStr (sub s : String) : Bool := ciHasSubL sub.data s.data

/-- The JS String.startsWith method. -/
def startsStr (patt s : String) : Bool := startsL patt.data s.data

/-- The JS String.endsWith method. -/
def endsStr (patt s : String) : Bool := startsL patt.data.reverse s.data.reverse

/-! ## Cache store (src cache module) -/

/-- Filesystem access errors observable from fs.access / fs.stat. -/
inductive FsError where
  | notFound
  | permissionDenied
deriving DecidableEq

/-- Shallow embedding of the cache module's fileExists: it awaits
fs.access(filePath) (modelled by the oracle) inside a try block, returns
true on success and false on any thrown error.  The Except codomain records
whether the function itself can propagate an error. -/
def fileExists (access : String → Except FsError Unit) (filePath : String) :
    Except FsError Bool :=
  match access filePath with
  | Except.ok _ => Except.ok true
  | Except.error _ => Except.ok false

/-- One directory entry as seen by the eviction sweep: its name, the result
of fs.stat (mtimeMs in milliseconds, or a thrown error), and whether
fs.unlink would succeed on it. -/
structure CacheFile where
  name : String
  statMs : Except FsError Int
  unlinkOk : Bool

/-- Shallow embedding of cleanupOldCache: age threshold is
cacheMaxAgeDays * 24 * 60 * 60 * 1000 ms; every listed entry is statted,
entries whose age (now - mtimeMs) strictly exceeds the threshold are
unlinked; stat or unlink errors are logged and skipped, never propagated.
Returns the names actually deleted (whose count the source logs). -/
def cleanupOldCache (now : Int) (cacheMaxAgeDays : Int) (files : List CacheFile) :
    List String :=
  let maxAgeMs := cacheMaxAgeDays * 24 * 60 * 60 * 1000
  files.filterMap (fun f =>
    match f.statMs with
    | Except.ok m =>
        if now - m > maxAgeMs then (if f.unlinkOk then some f.name else none) else none
    | Except.error _ => none)

/-! ## URL normalization (imageDownloader.transformUrl) -/

/-- Character class [a-z0-9-] under the i flag, i.e. [a-zA-Z0-9-],
expressed on code points. -/
def isLucideNameChar (c : Char) : Bool :=
  (97 ≤ c.toNat && c.toNat ≤ 122) || (65 ≤ c.toNat && c.toNat ≤ 90) ||
    (48 ≤ c.toNat && c.toNat ≤ 57) || c.toNat == 45

/-- The literal part of the provider pattern lucide.dev/icons/ (matched
case-insensitively). -/
def lucideLit : List Char := "lucide.dev/icons/".data

/-- Attempt the pattern at the current position: the literal followed by a
nonempty greedy run of icon-name characters, which is the capture. -/
def tryLucideAt (cs : List Char) : Option (List Char) :=
  if ciStartsL lucideLit cs then
    let rest := cs.drop lucideLit.length
    let cap := rest.takeWhile isLucideNameChar
    if cap.isEmpty then none else some cap
  else none

/-- Leftmost match of the provider pattern, returning capture group 1
(the icon name), as the JS url.match call does. -/
def findLucide : List Char → Option (List Char)
  | [] => none
  | c :: cs =>
    match tryLucideAt (c :: cs) with
    | some cap => some cap
    | none => findLucide cs

/-- Shallow embedding of transformUrl: rewrite a recognized provider
icon-page URL to the raw-asset CDN URL for the same icon name; pass
unrecognized URLs through unchanged. -/
def transformUrl (url : String) : String :=
  match findLucide url.data with
  | some iconName =>
      "https://unpkg.com/lucide-static@latest/icons/" ++ String.mk iconName ++ ".svg"
  | none => url

/-! ## SVG transform (imageDownloader.processSvgContent and helpers) -/

/-- Replace every case-insensitive occurrence of a literal (global i-flag
regex replace), leftmost and non-overlapping.  Fuel is the input length. -/
def replaceAllCi (patt rep : List Char) : Nat → List Char → List Char
  | 0, l => l
  | _ + 1, [] => []
  | f + 1, c :: cs =>
    if !patt.isEmpty && ciStartsL patt (c :: cs) then
      rep ++ replaceAllCi patt rep f (List.drop (patt.length - 1) cs)
    else
      c :: replaceAllCi patt rep f cs

/-- Replace the first exact occurrence of a literal (the JS one-shot
String.replace with a plain-string pattern). -/
def replaceFirst (patt rep : List Char) : List Char → List Char
  | [] => []
  | c :: cs =>
    if !patt.isEmpty && startsL patt (c :: cs) then
      rep ++ List.drop (patt.length - 1) cs
    else
      c :: replaceFirst patt rep cs

/-- First index of an exact literal occurrence, if any. -/
def findIdxLit (patt : List Char) : List Char → Option Nat
  | [] => if patt.isEmpty then some 0 else none
  | c :: cs =>
    if startsL patt (c :: cs) then some 0
    else (findIdxLit patt cs).map (· + 1)

/-- The regex replace of /<svg([^>]*)>/ by <svg$1>RECT: insert RECT right
after the first complete root svg open tag; if the pattern has no match
(no <svg, or no closing > after it) the input is unchanged. -/
def svgTagInsert (rect l : List Char) : List Char :=
  match findIdxLit "<svg".data l with
  | none => l
  | some i =>
    let pre := l.take i
    let after := l.drop (i + 4)
    let attrs := after.takeWhile (fun c => c != '>')
    match after.drop attrs.length with
    | g :: rest => pre ++ "<svg".data ++ attrs ++ g :: (rect ++ rest)
    | [] => l

/-- Match attempt for viewBox=["']([^"']+)["'] at the current position. -/
def tryViewBoxAt (l : List Char) : Option (List Char) :=
  match dropLit "viewBox=".data l with
  | none => none
  | some [] => none
  | some (q :: r) =>
    if q == dq || q == sq then
      let cap := r.takeWhile (fun c => c != dq && c != sq)
      if cap.isEmpty then none
      else
        match r.drop cap.length with
        | q2 :: _ => if q2 == dq || q2 == sq then some cap else none
        | [] => none
    else none

/-- Leftmost match of the viewBox attribute regex, returning the capture. -/
def findViewBoxCap : List Char → Option (List Char)
  | [] => none
  | c :: cs =>
    match tryViewBoxAt (c :: cs) with
    | some cap => some cap
    | none => findViewBoxCap cs

/-- Match attempt for ATTR(\d+)["'] preceded by ATTR=["'], used for the
width=["'](\d+)["'] and height=["'](\d+)["'] probes. -/
def tryNumAttrAt (attrEq : List Char) (l : List Char) : Option (List Char) :=
  match dropLit attrEq l with
  | none => none
  | some [] => none
  | some (q :: r) =>
    if q == dq || q == sq then
      let cap := r.takeWhile isDigitChar
      if cap.isEmpty then none
      else
        match r.drop cap.length with
        | q2 :: _ => if q2 == dq || q2 == sq then some cap else none
        | [] => none
    else none

/-- Leftmost match of a numeric attribute regex, returning the digits. -/
def findNumAttrCap (attrEq : List Char) : List Char → Option (List Char)
  | [] => none
  | c :: cs =>
    match tryNumAttrAt attrEq (c :: cs) with
    | some cap => some cap
    | none => findNumAttrCap attrEq cs

/-- Value of a nonempty digit string. -/
def digitsVal (l : List Char) : Nat := l.foldl (fun a c => a * 10 + (c.toNat - 48)) 0

/-- The JS Number conversion, restricted to the optionally-signed decimal
integer fragment that viewBox values use in practice; other inputs (which
would render as NaN in JS) are out of the modelled fragment. -/
def parseJsInt (l : List Char) : Int :=
  match l with
  | '-' :: rest =>
      if !rest.isEmpty && rest.all isDigitChar then -(digitsVal rest : Int) else 0
  | _ => if !l.isEmpty && l.all isDigitChar then (digitsVal l : Int) else 0

/-- The JS String.split(/\s+/): segments between maximal whitespace runs,
with an empty leading segment when the input starts with whitespace and an
empty trailing segment when it ends with one.  Fuel is the input length. -/
def splitWsJs : Nat → List Char → List (List Char)
  | 0, _ => [[]]
  | _ + 1, [] => [[]]
  | f + 1, c :: cs =>
    if isWsChar c then
      [] :: splitWsJs f ((c :: cs).dropWhile isWsChar)
    else
      let tok := (c :: cs).takeWhile (fun x => !isWsChar x)
      let rest := (c :: cs).dropWhile (fun x => !isWsChar x)
      match rest with
      | [] => [tok]
      | _ :: _ => tok :: splitWsJs f (rest.dropWhile isWsChar)

/-- Theme-contrast background color chosen by the source (white on dark
themes, near-black on light themes); the active theme is a parameter. -/
def getContrastBackgroundColor (isDark : Bool) : String :=
  if isDark then "#ffffff" else "#1e1e1e"

/-- Shallow embedding of addBackgroundToSvg: size the rectangle to the
parsed viewBox, or absent a viewBox to parsed width/height attributes
defaulting to 24, and insert it right after the root svg open tag. -/
def addBackgroundToSvg (svg bgColor : String) : String :=
  match findViewBoxCap svg.data with
  | none =>
    let w := match findNumAttrCap "width=".data svg.data with
      | some d => digitsVal d
      | none => 24
    let h := match findNumAttrCap "height=".data svg.data with
      | some d => digitsVal d
      | none => 24
    let bgRect := "<rect x=\"0\" y=\"0\" width=\"" ++ toString w ++ "\" height=\"" ++
      toString h ++ "\" fill=\"" ++ bgColor ++ "\" rx=\"2\"/>"
    String.mk (svgTagInsert bgRect.data svg.data)
  | some cap =>
    let nums := (splitWsJs cap.length cap).map parseJsInt
    let minX := nums.getD 0 0
    let minY := nums.getD 1 0
    let vbWidth := nums.getD 2 0
    let vbHeight := nums.getD 3 0
    let bgRect := "<rect x=\"" ++ toString minX ++ "\" y=\"" ++ toString minY ++
      "\" width=\"" ++ toString vbWidth ++ "\" height=\"" ++ toString vbHeight ++
      "\" fill=\"" ++ bgColor ++ "\" rx=\"2\"/>"
    String.mk (svgTagInsert bgRect.data svg.data)

/-- Shallow embedding of processSvgContent (the recoloring/compositing
variant): replace every case-insensitive currentColor occurrence with the
configured color, inject a root fill attribute when the document declares
neither stroke= nor fill= anywhere, then composite the theme background. -/
def processSvgContent (isDark : Bool) (content : String) (color : String := "#ffffff") :
    String :=
  let p1 := String.mk (replaceAllCi "currentColor".data color.data content.data.length content.data)
  let p2 :=
    if !hasSubStr "stroke=" p1 && !hasSubStr "fill=" p1 then
      String.mk (replaceFirst "<svg".data ("<svg fill=\"" ++ color ++ "\"").data p1.data)
    else p1
  addBackgroundToSvg p2 (getContrastBackgroundColor isDark)

/-! ## Network fetch with redirect handling (imageDownloader.fetchUrl) -/

/-- Result of one successful fetch: body bytes (modelled as a string) and
the declared content type. -/
structure FetchResult where
  data : String
  contentType : String
deriving DecidableEq

/-- One HTTP response as observed by the fetcher. -/
structure HttpResponse where
  statusCode : Nat
  location : Option String
  body : String
  contentType : String

/-- Split at the first occurrence of a literal: (before, after). -/
def splitOnLit (patt : List Char) : List Char → Option (List Char × List Char)
  | [] => if patt.isEmpty then some ([], []) else none
  | c :: cs =>
    if startsL patt (c :: cs) then some ([], List.drop patt.length (c :: cs))
    else (splitOnLit patt cs).map (fun p => (c :: p.1, p.2))

/-- Model of the WHATWG URL constructor restricted to the absolute
scheme://host/... shape the extension deals with: yields
(protocol-with-colon, host, pathname); none models the constructor
throwing on inputs without a scheme separator or host. -/
def parseUrl (u : String) : Option (String × String × String) :=
  match splitOnLit "://".data u.data with
  | none => none
  | some (scheme, rest) =>
    if scheme.isEmpty then none
    else
      let host := rest.takeWhile (fun c => c != '/' && c != '?' && c != '#')
      if host.isEmpty then none
      else
        let afterHost := rest.drop host.length
        let pathn := afterHost.takeWhile (fun c => c != '?' && c != '#')
        some (String.mk scheme ++ ":", String.mk host,
          if pathn.isEmpty then "/" else String.mk pathn)

/-- JS truthiness of the Location header value used by the source's
redirect guard (undefined and the empty string are falsy). -/
def locTruthy : Option String → Bool
  | none => false
  | some l => !(l == "")

/-- The statuses the fetcher follows. -/
def isRedirectStatus (s : Nat) : Bool := s == 301 || s == 302 || s == 307

/-- Redirect resolution of the source: a Location starting with / is
prefixed with the original request's protocol and host; an absolute
Location is used as is.  none models new URL(url) throwing. -/
def resolveRedirect (url loc : String) : Option String :=
  if startsStr "/" loc then
    (parseUrl url).map (fun p => p.1 ++ "//" ++ p.2.1 ++ loc)
  else some loc

/-- Request trace of fetchUrl: the sequence of URLs actually requested,
following redirects recursively.  The source recursion has no hop cap, so
fuel only truncates the observation window; each unfolding first issues a
request for the current URL. -/
def fetchReqs (net : String → HttpResponse) : Nat → String → List String
  | 0, _ => []
  | f + 1, url =>
    url ::
      (let r := net url
       if isRedirectStatus r.statusCode && locTruthy r.location then
         match resolveRedirect url (r.location.getD "") with
         | some next => fetchReqs net f next
         | none => []
       else [])

/-! ## Image acquisition and on-disk cache (imageDownloader.downloadImage) -/

/-- The in-memory model of the cache directory: an association list from
path to file content, newest write first. -/
abbrev FileSys := List (String × String)

/-- Overwrite-or-create a file (cache.writeFile). -/
def fsWrite (fs : FileSys) (p v : String) : FileSys := (p, v) :: fs

/-- Existence probe against the model disk; this is cache.fileExists on an
error-free disk (the error-absorbing behaviour of fileExists itself is
modelled separately above). -/
def fsHas (fs : FileSys) (p : String) : Bool := (fs.lookup p).isSome

/-- Cache directory path (path.join of the OS temp dir and the fixed
directory name; the temp dir is host state, fixed here). -/
def cacheDir : String := "/tmp/icon-preview-cache"

/-- Theme suffix appended to every cache filename. -/
def themeSuffix (isDark : Bool) : String := if isDark then "dark" else "light"

/-- Ambient collaborators of downloadImage: the active theme and configured
SVG color (read from config at call time), plus the external md5 hex digest
and base64 decoder primitives, which are deterministic functions. -/
structure AcqEnv where
  isDark : Bool
  svgColor : String
  md5 : String → String
  base64Decode : String → String

/-- Parse of the data-URL regex (the mime capture before the first
semicolon, then the literal base64 marker, then the payload running to the
end of input; the dot class excludes newlines). -/
def parseDataImage (u : String) : Option (String × String) :=
  match dropLit "data:image/".data u.data with
  | none => none
  | some r =>
    let mime := r.takeWhile (fun c => c != ';')
    if mime.isEmpty then none
    else
      match dropLit ";base64,".data (r.drop mime.length) with
      | none => none
      | some payload =>
        if payload.isEmpty || !payload.all (fun c => c != '\n') then none
        else some (String.mk mime, String.mk payload)

/-- The extension-dependent cache path derived for a remote reference. -/
def derivedPath (env : AcqEnv) (originalUrl ext : String) : String :=
  cacheDir ++ "/" ++ env.md5 (transformUrl originalUrl) ++ "-" ++
    themeSuffix env.isDark ++ ext

/-- The basename part of path.extname: characters after the last slash. -/
def baseNameL (l : List Char) : List Char :=
  ((l.reverse.takeWhile (fun c => c != '/')).reverse)

/-- path.extname: the suffix of the basename from its last dot, unless that
dot is the leading character; empty when the basename has no such dot. -/
def extname (p : String) : String :=
  let base := baseNameL p.data
  let afterRev := base.reverse.takeWhile (fun c => c != '.')
  if afterRev.length = base.length then ""
  else if afterRev.length + 1 = base.length then ""
  else String.mk ('.' :: afterRev.reverse)

/-- The remote-fetch path of downloadImage: normalize the URL, derive the
keyed svg/png cache paths, probe them, otherwise fetch (the oracle stands
for one fetchUrl call; none models its rejection), classify the payload,
transform SVG content, and persist.  Returns the produced path (none for a
thrown error), the updated disk, and how many fetches were issued. -/
def downloadRemote (env : AcqEnv) (net : String → Option FetchResult)
    (fs : FileSys) (originalUrl : String) : Option String × FileSys × Nat :=
  let url := transformUrl originalUrl
  let svgPath := derivedPath env originalUrl ".svg"
  let pngPath := derivedPath env originalUrl ".png"
  if fsHas fs svgPath then (some svgPath, fs, 0)
  else if fsHas fs pngPath then (some pngPath, fs, 0)
  else
    match net url with
    | none => (none, fs, 1)
    | some fr =>
      if hasSubStr "svg" fr.contentType || endsStr ".svg" url || hasSubStr "<svg" fr.data then
        (some svgPath, fsWrite fs svgPath (processSvgContent env.isDark fr.data env.svgColor), 1)
      else
        match parseUrl url with
        | none => (none, fs, 1)
        | some parts =>
          let ext0 := extname parts.2.2
          let ext := if ext0 = "" then ".png" else ext0
          let filePath := derivedPath env originalUrl ext
          (some filePath, fsWrite fs filePath fr.data, 1)

/-- Shallow embedding of downloadImage (the per-theme caching variant):
embedded data references are decoded directly and cached under the exact
derived path; malformed data references fall through to the remote path. -/
def downloadImage (env : AcqEnv) (net : String → Option FetchResult)
    (fs : FileSys) (originalUrl : String) : Option String × FileSys × Nat :=
  if startsStr "data:image" originalUrl then
    match parseDataImage originalUrl with
    | some (mime, b64) =>
      let hash := env.md5 originalUrl
      let ext := if mime = "svg+xml" then "svg" else mime
      let filePath := cacheDir ++ "/" ++ hash ++ "-" ++ themeSuffix env.isDark ++ "." ++ ext
      if fsHas fs filePath then (some filePath, fs, 0)
      else
        let buffer := env.base64Decode b64
        if ext = "svg" then
          (some filePath, fsWrite fs filePath (processSvgContent env.isDark buffer env.svgColor), 0)
        else
          (some filePath, fsWrite fs filePath buffer, 0)
    | none => downloadRemote env net fs originalUrl
  else downloadRemote env net fs originalUrl

/-! ## Import scan (symbolResolver, import statement regex) -/

/-- Captures of one import-statement match: the optional default-import
name, the optional raw named-import list between braces, and the module
path. -/
structure ImportCaps where
  defaultImport : Option String
  namedImports : Option String
  modulePath : String
deriving DecidableEq

/-- All ways to split off a brace-closed chunk, shortest content first, as
the lazy ([\s\S]*?)} group backtracks: each element is (content, rest)
with the input equal to content ++ closing brace ++ rest. -/
def braceSplits : List Char → List (List Char × List Char)
  | [] => []
  | c :: cs =>
    if c == '}' then ([], cs) :: (braceSplits cs).map (fun p => (c :: p.1, p.2))
    else (braceSplits cs).map (fun p => (c :: p.1, p.2))

/-- Backtracking alternatives of the greedy (\w+) group: the word prefixes
of the maximal word run, longest first, each with the remaining input. -/
def wordSplits (cs : List Char) : List (List Char × List Char) :=
  let w := cs.takeWhile isWordChar
  let rest := cs.dropWhile isWordChar
  (List.range w.length).filterMap (fun i =>
    let k := w.length - i
    if k = 0 then none else some (w.take k, w.drop k ++ rest))

/-- Alternatives of the optional default-import group (\w+)\s*,?\s* —
each word alternative with the following whitespace, optional comma and
whitespace consumed, then the group-skipped alternative. -/
def group1Alts (cs : List Char) : List (Option (List Char) × List Char) :=
  ((wordSplits cs).map (fun p =>
    let r1 := p.2.dropWhile isWsChar
    let r2 := match r1 with
      | ',' :: t => t.dropWhile isWsChar
      | _ => r1
    (some p.1, r2))) ++ [(none, cs)]

/-- Alternatives of the optional braced named-import group. -/
def group2Alts (cs : List Char) : List (Option (List Char) × List Char) :=
  (match cs with
   | '{' :: rest => (braceSplits rest).map (fun p => (some p.1, p.2))
   | _ => []) ++ [(none, cs)]

/-- The tail [\s]*from\s*['"]([^'"]+)['"] of the import regex: returns the
module-path capture and the rest after the match. -/
def importTail (r : List Char) : Option (List Char × List Char) :=
  let r1 := r.dropWhile isWsChar
  match dropLit "from".data r1 with
  | none => none
  | some r2 =>
    let r3 := r2.dropWhile isWsChar
    match r3 with
    | [] => none
    | q :: r4 =>
      if q == dq || q == sq then
        let m := r4.takeWhile (fun c => c != dq && c != sq)
        if m.isEmpty then none
        else
          match r4.drop m.length with
          | q2 :: rest => if q2 == dq || q2 == sq then some (m, rest) else none
          | [] => none
      else none

/-- Match attempt of the whole import regex at the current position,
trying group alternatives in the engine's order. -/
def matchImportAt (cs : List Char) : Option (ImportCaps × List Char) :=
  match dropLit "import".data cs with
  | none => none
  | some r0 =>
    if (r0.takeWhile isWsChar).isEmpty then none
    else
      let r1 := r0.dropWhile isWsChar
      (group1Alts r1).findSome? (fun g1 =>
        (group2Alts g1.2).findSome? (fun g2 =>
          (importTail g2.2).map (fun t =>
            ({ defaultImport := g1.1.map String.mk,
               namedImports := g2.1.map String.mk,
               modulePath := String.mk t.1 }, t.2))))

/-- The global exec loop over the import regex: leftmost matches, resuming
after each match end.  Fuel is the document length. -/
def importLoop : Nat → List Char → List ImportCaps
  | 0, _ => []
  | _ + 1, [] => []
  | f + 1, c :: cs =>
    match matchImportAt (c :: cs) with
    | some (caps, rest) => caps :: importLoop f rest
    | none => importLoop f cs

/-- JS String.trim on the modelled whitespace. -/
def jsTrim (l : List Char) : List Char :=
  ((l.dropWhile isWsChar).reverse.dropWhile isWsChar).reverse

/-- Does the separator regex \s+as\s+ match at this position? -/
def asSepAt (cs : List Char) : Bool :=
  let w := cs.takeWhile isWsChar
  if w.isEmpty then false
  else
    match dropLit "as".data (cs.dropWhile isWsChar) with
    | none => false
    | some r => !(r.takeWhile isWsChar).isEmpty

/-- The part of a string before the first \s+as\s+ separator (parts[0] of
the JS split); the whole string when the separator never matches. -/
def beforeAsSep : List Char → List Char
  | [] => []
  | c :: cs => if asSepAt (c :: cs) then [] else c :: beforeAsSep cs

/-- JS String.split(','). -/
def splitComma (l : List Char) : List (List Char) :=
  l.foldr (fun c acc =>
    match acc with
    | [] => [[c]]
    | a :: tl => if c == ',' then [] :: (a :: tl) else (c :: a) :: tl) [[]]

/-- Component-candidate test /^[A-Z]/. -/
def startsUpper (s : String) : Bool :=
  match s.data with
  | [] => false
  | c :: _ => 'A' ≤ c && c ≤ 'Z'

/-- Per-entry mapping of the named-import list: trim, cut at the alias
separator taking the pre-as (exported) name, trim again; empty entries map
to the empty string. -/
def pickName (l : List Char) : String :=
  let t := jsTrim l
  if t.isEmpty then "" else String.mk (jsTrim (beforeAsSep t))

/-- Candidates contributed by a named-import list: split on commas, map to
the pre-as names, keep nonempty names starting with an uppercase letter. -/
def namedCandidates : Option String → List String
  | none => []
  | some s => ((splitComma s.data).map pickName).filter
      (fun n => !(n == "") && startsUpper n)

/-- Symbols contributed by one import match: the default import (pushed
without any case filter), then the filtered named imports. -/
def capsSymbols (caps : ImportCaps) : List String :=
  (match caps.defaultImport with
   | some d => [d]
   | none => []) ++ namedCandidates caps.namedImports

/-- All import matches of a document. -/
def importMatches (text : String) : List ImportCaps :=
  importLoop text.data.length text.data

/-- The candidate-symbol list collected by the import scan. -/
def scanImports (text : String) : List String :=
  (importMatches text).flatMap capsSymbols

/-- The default-import names collected by the import scan. -/
def defaultImportsOf (text : String) : List String :=
  (importMatches text).flatMap (fun caps =>
    match caps.defaultImport with
    | some d => [d]
    | none => [])

/-! ## Preview extraction (symbolResolver, documentation-tag regexes) -/

/-- Consume \s+SYM (case-insensitively) after the name tag. -/
def afterNameTag (sym r : List Char) : Option (List Char) :=
  if (r.takeWhile isWsChar).isEmpty then none
  else dropLitCi sym (r.dropWhile isWsChar)

/-- Head of the exact-name block regex at a position: an at sign, an
optional component marker followed by whitespace, the name tag, whitespace,
then the symbol, all case-insensitive.  Returns the rest after the symbol.
The two alternatives of the optional group are mutually exclusive, so
committing to the first that matches is faithful to the engine. -/
def tryNameHeadAt (sym cs : List Char) : Option (List Char) :=
  match cs with
  | [] => none
  | c :: r =>
    if c == '@' then
      match dropLitCi "component".data r with
      | some r1 =>
        if (r1.takeWhile isWsChar).isEmpty then
          match dropLitCi "@name".data r with
          | some r2 => afterNameTag sym r2
          | none => none
        else
          match dropLitCi "@name".data (r1.dropWhile isWsChar) with
          | some r2 => afterNameTag sym r2
          | none =>
            match dropLitCi "@name".data r with
            | some r2 => afterNameTag sym r2
            | none => none
      | none =>
        match dropLitCi "@name".data r with
        | some r2 => afterNameTag sym r2
        | none => none
    else none

/-- The preview tail of the exact-name block regex at a position: the
preview tag, whitespace, the embedded image markdown opener, then the
data-image capture up to the closing parenthesis.  Returns capture 1
(the original text characters). -/
def tryPreviewTailAt (cs : List Char) : Option (List Char) :=
  match dropLitCi "@preview".data cs with
  | none => none
  | some r0 =>
    if (r0.takeWhile isWsChar).isEmpty then none
    else
      match dropLitCi "![img](".data (r0.dropWhile isWsChar) with
      | none => none
      | some r1 =>
        if ciStartsL "data:image".data r1 then
          let r2 := r1.drop 10
          let run := r2.takeWhile (fun c => c != ')')
          if run.isEmpty then none
          else
            match r2.drop run.length with
            | ')' :: _ => some (r1.take 10 ++ run)
            | _ => none
        else none

/-- The lazy any-character gap of the block regex: the earliest following
position at which the preview tail matches. -/
def previewTailScan : List Char → Option (List Char)
  | [] => none
  | c :: cs =>
    match tryPreviewTailAt (c :: cs) with
    | some cap => some cap
    | none => previewTailScan cs

/-- Whole exact-name block attempt at one position. -/
def tryNameBlockAt (sym cs : List Char) : Option (List Char) :=
  match tryNameHeadAt sym cs with
  | none => none
  | some rest => previewTailScan rest

/-- Leftmost match of the exact-name block regex over the declaration
text, returning the embedded-image capture. -/
def matchNameBlock (sym : List Char) : List Char → Option (List Char)
  | [] => none
  | c :: cs =>
    match tryNameBlockAt sym (c :: cs) with
    | some cap => some cap
    | none => matchNameBlock sym cs

/-- First matching declaration keyword consumed from the front. -/
def keywordDrop (cs : List Char) : Option (List Char) :=
  match dropLit "const".data cs with
  | some r => some r
  | none =>
    match dropLit "function".data cs with
    | some r => some r
    | none => dropLit "class".data cs

/-- Declaration body (const|function|class)\s+SYM\b at a position; the
symbol is matched case-sensitively and must end at a word boundary. -/
def declBodyAt (sym cs : List Char) : Bool :=
  match keywordDrop cs with
  | none => false
  | some r =>
    if (r.takeWhile isWsChar).isEmpty then false
    else
      match dropLit sym (r.dropWhile isWsChar) with
      | none => false
      | some [] => true
      | some (c :: _) => !isWordChar c

/-- The existence probe regex of the source at one position: an optional
export qualifier then a declaration body. -/
def declAt (sym cs : List Char) : Bool :=
  (match dropLit "export".data cs with
   | some r => !(r.takeWhile isWsChar).isEmpty && declBodyAt sym (r.dropWhile isWsChar)
   | none => false)
  || declBodyAt sym cs

/-- Existence test of the symbol declaration anywhere in the file, as the
source's fallback gate performs it (export optional). -/
def symbolExistsIn (sym : List Char) : List Char → Bool
  | [] => false
  | c :: cs => declAt sym (c :: cs) || symbolExistsIn sym cs

/-- Modelled from the spec: the claim's stated gate requires an
export-qualified const/function/class declaration of the symbol; this
definition follows the claim's words (export mandatory) for comparison
with the source's gate above. -/
def exportQualifiedDeclIn (sym : List Char) : List Char → Bool
  | [] => false
  | c :: cs =>
    (match dropLit "export".data (c :: cs) with
     | some r => !(r.takeWhile isWsChar).isEmpty && declBodyAt sym (r.dropWhile isWsChar)
     | none => false)
    || exportQualifiedDeclIn sym cs

/-- The ://[^\s*)]+ tail of the generic preview URL, returning the number
of characters it consumes. -/
def urlTail (cs : List Char) : Option Nat :=
  match dropLit "://".data cs with
  | none => none
  | some r =>
    let run := r.takeWhile (fun c => !isWsChar c && c != '*' && c != ')')
    if run.isEmpty then none else some (3 + run.length)

/-- The capture (https?://[^\s*)]+) at a position (case-insensitive scheme,
greedy optional s tried first), returning the original text characters. -/
def urlAt (cs : List Char) : Option (List Char) :=
  if ciStartsL "http".data cs then
    match cs.drop 4 with
    | c :: _ =>
      if ciEq 's' c then
        match urlTail (cs.drop 5) with
        | some rl => some (cs.take (5 + rl))
        | none =>
          match urlTail (cs.drop 4) with
          | some rl2 => some (cs.take (4 + rl2))
          | none => none
      else
        match urlTail (cs.drop 4) with
        | some rl2 => some (cs.take (4 + rl2))
        | none => none
    | [] => none
  else none

/-- Dash class [em-dash, hyphen] of the generic preview regex. -/
def dashChar (c : Char) : Bool := c == '-' || c == Char.ofNat 8212

/-- The generic preview tag regex at one position: the preview tag,
optional decorative dashes, an optional img label, then the URL capture.
The optional groups never overlap the URL alternative, so greedy
commitment is faithful. -/
def trySimpleAt (cs : List Char) : Option (List Char) :=
  match dropLitCi "@preview".data cs with
  | none => none
  | some r0 =>
    let r1 := r0.dropWhile isWsChar
    let r2 :=
      if (r1.takeWhile dashChar).isEmpty then r1
      else (r1.dropWhile dashChar).dropWhile isWsChar
    let r3 :=
      match dropLitCi "img".data r2 with
      | some t => ((t.dropWhile isWsChar).dropWhile dashChar).dropWhile isWsChar
      | none => r2
    urlAt r3

/-- Leftmost match of the generic preview tag regex. -/
def findSimple : List Char → Option (List Char)
  | [] => none
  | c :: cs =>
    match trySimpleAt (c :: cs) with
    | some cap => some cap
    | none => findSimple cs

/-- The two-tier preview extraction of the resolver: the exact-name block
first; failing that, the generic preview tag gated on the symbol being
declared in the file. -/
def extractPreviewUrl (sym defText : String) : Option String :=
  match matchNameBlock sym.data defText.data with
  | some cap => some (String.mk cap)
  | none =>
    if symbolExistsIn sym.data defText.data then
      (findSimple defText.data).map String.mk
    else none

/-! ## Usage scan and the resolution loop (findImportedSymbolsWithPreview) -/

/-- Tag-opening usage test at a position: an angle bracket, the symbol,
then whitespace, slash, or a closing angle bracket. -/
def usageAt (sym cs : List Char) : Bool :=
  match cs with
  | '<' :: r =>
    (match dropLit sym r with
     | some (d :: _) => isWsChar d || d == '/' || d == '>'
     | _ => false)
  | _ => false

/-- Indices of the non-overlapping global matches of the usage regex,
resuming after each match end.  Fuel is the document length. -/
def usageIdxs (sym : List Char) : Nat → Nat → List Char → List Nat
  | 0, _, _ => []
  | _ + 1, _, [] => []
  | f + 1, i, c :: cs =>
    if usageAt sym (c :: cs) then
      i :: usageIdxs sym f (i + sym.length + 2) (List.drop (sym.length + 1) cs)
    else usageIdxs sym f (i + 1) cs

/-- Offset-to-position conversion of the host document model: lines are
newline-separated, the character is the offset within the line. -/
def posAtAux : List Char → Nat → Nat → Nat → Nat × Nat
  | _, 0, ln, col => (ln, col)
  | [], _ + 1, ln, col => (ln, col)
  | c :: cs, n + 1, ln, col =>
    if c == '\n' then posAtAux cs n (ln + 1) 0 else posAtAux cs n ln (col + 1)

/-- document.positionAt. -/
def posAt (l : List Char) (off : Nat) : Nat × Nat := posAtAux l off 0 0

/-- The two historical result shapes of the external definition lookup,
plus an unrecognized shape (skipped with a log line by the source). -/
inductive DefTarget where
  | withTargetUri (uri : String)
  | withUri (uri : String)
  | unknownShape
deriving DecidableEq

/-- The uri field selection of the source: targetUri when present, else
uri, else none. -/
def targetUriOf : DefTarget → Option String
  | DefTarget.withTargetUri u => some u
  | DefTarget.withUri u => some u
  | DefTarget.unknownShape => none

/-- External collaborators of the resolver: the definition-lookup command
(none models a thrown error, an empty list a miss) and the document-open
capability (none models an unreadable target). -/
structure ResolveEnv where
  defLookup : Nat → Nat → Option (List DefTarget)
  openDoc : String → Option String

/-- One marker result: line, end column of the component name, and the
extracted preview reference. -/
structure SymbolInfo where
  line : Nat
  column : Nat
  url : String
deriving DecidableEq

/-- The per-usage body inside the try block: look up the definition, take
the first target, read its uri, open the document, extract the preview.
Every failure along the chain yields none (the source logs and moves on). -/
def tryResolveUsage (env : ResolveEnv) (sym : String) (line ch : Nat) : Option String :=
  match env.defLookup line ch with
  | none => none
  | some [] => none
  | some (t :: _) =>
    match targetUriOf t with
    | none => none
    | some uri =>
      match env.openDoc uri with
      | none => none
      | some defText => extractPreviewUrl sym defText

/-- Processing of one usage occurrence: compute the position just past the
angle bracket and the name-end column, skip when a result already occupies
that (line, column), otherwise resolve and append on success. -/
def processUsage (env : ResolveEnv) (text : List Char) (acc : List SymbolInfo)
    (sym : String) (idx : Nat) : List SymbolInfo :=
  let pos := posAt text (idx + 1)
  let line := pos.1
  let col := pos.2 + sym.data.length
  if acc.any (fun r => r.line == line && r.column == col) then acc
  else
    match tryResolveUsage env sym line pos.2 with
    | some url => acc ++ [⟨line, col, url⟩]
    | none => acc

/-- Shallow embedding of findImportedSymbolsWithPreview: scan imports,
then for each candidate symbol process its usage occurrences in document
order, accumulating results across all symbols. -/
def resolveDoc (env : ResolveEnv) (text : String) : List SymbolInfo :=
  (scanImports text).foldl (fun acc sym =>
    (usageIdxs sym.data text.data.length 0 text.data).foldl
      (fun acc2 idx => processUsage env text.data acc2 sym idx) acc) []

/-! ## Decoration pass (decorations.updateDecorations, marker loop) -/

/-- The marker-application loop of updateDecorations over the resolved
(line, url) pairs: each download attempt is wrapped in its own try block,
a failure (none) logs and omits only that marker, a success attaches a
marker carrying the local file path. -/
def applyDecorations (download : String → Option String)
    (previews : List (Nat × String)) : List (Nat × String) :=
  previews.filterMap (fun lu => (download lu.2).map (fun p => (lu.1, p)))

/-! ## Auxiliary definitions used by the verification -/

/-- Is there a case-insensitive mismatch between the pattern and the text
within their overlap?  When there is, no extension of the text on the
right can make the pattern a case-insensitive prefix. -/
def hasMisL : List Char → List Char → Bool
  | [], _ => false
  | _ :: _, [] => false
  | p :: ps, t :: ts => !ciEq p t || hasMisL ps ts

/-- Does the pattern mismatch within every nonempty suffix of the given
literal?  Decidable on concrete literals; used to rule out pattern
occurrences beginning inside a fixed prefix. -/
def allSuffixesFail (pat : List Char) : List Char → Bool
  | [] => true
  | c :: cs => hasMisL pat (c :: cs) && allSuffixesFail pat cs

/-- Concrete acquisition environment for evaluation: light theme, default
color, a fixed digest and an identity decoder. -/
def cexAcqEnv : AcqEnv :=
  { isDark := false, svgColor := "#ffffff", md5 := fun _ => "h",
    base64Decode := fun s => s }

/-- Network oracle serving one GIF image. -/
def cexNetGif : String → Option FetchResult := fun u =>
  if u = "http://e.com/a.gif" then some { data := "GIF89a", contentType := "image/gif" }
  else none

/-- Network oracle serving one SVG image. -/
def cexNetSvg : String → Option FetchResult := fun u =>
  if u = "http://e.com/a.svg" then
    some { data := "<svg viewBox=\"0 0 24 24\"></svg>", contentType := "image/svg+xml" }
  else none

/-- Network oracle answering one URL with a relative redirect. -/
def cexNetRedir : String → HttpResponse := fun u =>
  if u = "https://cdn.example.com/old" then
    { statusCode := 302, location := some "/new/path", body := "", contentType := "" }
  else { statusCode := 200, location := none, body := "", contentType := "" }

/-- Resolver environment whose definition lookup always lands in one file
declaring Foo with a generic preview tag. -/
def cexResolveEnv : ResolveEnv :=
  { defLookup := fun _ _ => some [DefTarget.withUri "icons.tsx"],
    openDoc := fun _ => some "const Foo = 1\n/** @preview https://x/a.svg */" }

/-- Downloader oracle failing on exactly one reference. -/
def cexDownload : String → Option String := fun u =>
  if u = "bad" then none else some "/tmp/p"

/-! ## Helper lemmas -/

/-- Preservation of a predicate along a left fold. -/
theorem foldl_pres {α β : Type} {P : α → Prop} {f : α → β → α}
    (hstep : ∀ a b, P a → P (f a b)) :
    ∀ (l : List β) (a : α), P a → P (l.foldl f a) := by
  intro l
  induction l with
  | nil => intro a ha; exact ha
  | cons x xs ih => intro a ha; exact ih (f a x) (hstep a x ha)

/-! ## C10: the existence probe absorbs filesystem errors -/

/-- C10: fileExists is total and never propagates a filesystem error — for
every access oracle and path it returns a boolean, and any access failure
(missing file, permission error) yields false rather than an error. -/
theorem fileExists_never_errors :
    ∀ (access : String → Except FsError Unit) (p : String),
      (∃ b, fileExists access p = Except.ok b) ∧
      (∀ e, fileExists access p ≠ Except.error e) ∧
      (∀ e, access p = Except.error e → fileExists access p = Except.ok false) := by
  intro access p
  refine ⟨?_, ?_, ?_⟩
  · unfold fileExists
    cases access p with
    | ok u => exact ⟨true, rfl⟩
    | error e => exact ⟨false, rfl⟩
  · intro e
    unfold fileExists
    cases access p <;> simp
  · intro e h
    unfold fileExists
    rw [h]

/-- Witness for C10 at a concrete failing oracle. -/
theorem fileExists_never_errors_witness :
    fileExists (fun _ => Except.error FsError.permissionDenied) "/tmp/x" = Except.ok false :=
  (fileExists_never_errors (fun _ => Except.error FsError.permissionDenied) "/tmp/x").2.2
    FsError.permissionDenied rfl

/-! ## C5: eviction boundary -/

/-- C5: the eviction sweep deletes exactly the entries whose age strictly
exceeds maxAgeDays * 86400000 ms (among entries whose stat and unlink
succeed); in particular, at threshold + 1 ms of age the entry is deleted
and at threshold - 1 ms it is retained. -/
theorem cleanup_evicts_exactly :
    (∀ (now maxDays : Int) (files : List CacheFile) (n : String),
      n ∈ cleanupOldCache now maxDays files ↔
        ∃ f, f ∈ files ∧ f.name = n ∧ f.unlinkOk = true ∧
          ∃ m, f.statMs = Except.ok m ∧ now - m > maxDays * 86400000) ∧
    cleanupOldCache 1700000000000 7
      [⟨"old", Except.ok (1700000000000 - 604800000 - 1), true⟩] = ["old"] ∧
    cleanupOldCache 1700000000000 7
      [⟨"fresh", Except.ok (1700000000000 - 604800000 + 1), true⟩] = [] := by
  refine ⟨?_, by decide, by decide⟩
  intro now maxDays files n
  have harith : maxDays * 24 * 60 * 60 * 1000 = maxDays * 86400000 := by ring
  unfold cleanupOldCache
  rw [List.mem_filterMap]
  constructor
  · rintro ⟨f, hf, hg⟩
    refine ⟨f, hf, ?_⟩
    split at hg
    next m heq =>
      split at hg
      next hage =>
        split at hg
        next hu =>
          exact ⟨Option.some_injective _ hg, hu, m, heq, by rw [← harith]; exact hage⟩
        next => exact absurd hg (by simp)
      next => exact absurd hg (by simp)
    next => exact absurd hg (by simp)
  · rintro ⟨f, hf, hn, hu, m, hs, hage⟩
    refine ⟨f, hf, ?_⟩
    simp only [hs]
    rw [if_pos (show now - m > maxDays * 24 * 60 * 60 * 1000 by rw [harith]; exact hage),
      if_pos hu, hn]

/-! ## C6: relative redirect resolution -/

/-- C6: a fetch answered with a 301/302/307 and a Location starting with a
slash issues its follow-up request to the URL formed by prefixing the
original request's origin (protocol and host) to that Location. -/
theorem fetch_follows_relative_redirect :
    ∀ (net : String → HttpResponse) (url loc proto host pathn : String) (f : Nat),
      isRedirectStatus (net url).statusCode = true →
      (net url).location = some loc →
      startsStr "/" loc = true →
      parseUrl url = some (proto, host, pathn) →
      (fetchReqs net (f + 2) url).take 2 = [url, proto ++ "//" ++ host ++ loc] := by
  intro net url loc proto host pathn f hst hloc hsl hparse
  have hne : (loc == "") = false := by
    rcases hd : loc.data with _ | ⟨c, cs⟩
    · unfold startsStr at hsl
      rw [hd] at hsl
      exact absurd hsl (by decide)
    · have hnemp : loc ≠ "" := by
        intro h
        rw [h] at hd
        have hz : ("" : String).data = [] := rfl
        rw [hz] at hd
        exact List.noConfusion hd
      simp [hnemp]
  have htr : locTruthy (net url).location = true := by
    rw [hloc]
    show (!(loc == "")) = true
    rw [hne]
    rfl
  have hres : resolveRedirect url ((net url).location.getD "") =
      some (proto ++ "//" ++ host ++ loc) := by
    rw [hloc]
    unfold resolveRedirect
    rw [Option.getD_some, if_pos hsl, hparse, Option.map_some']
  have h1 : fetchReqs net (f + 2) url =
      url :: fetchReqs net (f + 1) (proto ++ "//" ++ host ++ loc) := by
    show fetchReqs net (f + 1 + 1) url = _
    rw [fetchReqs]
    simp only [hst, htr, hres, Bool.and_self, if_true]
  obtain ⟨t, ht⟩ : ∃ t, fetchReqs net (f + 1) (proto ++ "//" ++ host ++ loc) =
      (proto ++ "//" ++ host ++ loc) :: t := ⟨_, by rw [fetchReqs]⟩
  rw [h1, ht]
  rfl

/-- Witness for C6: the spec's concrete example, a 302 with Location
/new/path against origin https://cdn.example.com. -/
theorem fetch_follows_relative_redirect_witness :
    (fetchReqs cexNetRedir 2 "https://cdn.example.com/old").take 2 =
      ["https://cdn.example.com/old", "https:" ++ "//" ++ "cdn.example.com" ++ "/new/path"] :=
  fetch_follows_relative_redirect cexNetRedir "https://cdn.example.com/old" "/new/path"
    "https:" "cdn.example.com" "/old" 0 (by decide) (by decide) (by decide) (by decide)

/-! ## C8: per-reference failure containment -/

/-- C8: failures are contained per usage and per reference — a failing
download changes the applied markers only by omitting its own marker, a
successful pair always yields its marker regardless of other entries, and
a definition-lookup failure leaves the accumulated results unchanged. -/
theorem failure_containment :
    (∀ (download : String → Option String) (l1 l2 : List (Nat × String))
        (line : Nat) (url : String),
      download url = none →
      applyDecorations download (l1 ++ (line, url) :: l2) =
        applyDecorations download (l1 ++ l2)) ∧
    (∀ (download : String → Option String) (previews : List (Nat × String))
        (line : Nat) (url p : String),
      (line, url) ∈ previews → download url = some p →
      (line, p) ∈ applyDecorations download previews) ∧
    (∀ (env : ResolveEnv) (text : List Char) (acc : List SymbolInfo)
        (sym : String) (idx : Nat),
      env.defLookup (posAt text (idx + 1)).1 (posAt text (idx + 1)).2 = none →
      processUsage env text acc sym idx = acc) := by
  refine ⟨?_, ?_, ?_⟩
  · intro download l1 l2 line url h
    unfold applyDecorations
    rw [List.filterMap_append, List.filterMap_append, List.filterMap_cons]
    simp [h]
  · intro download previews line url p hmem hdl
    unfold applyDecorations
    rw [List.mem_filterMap]
    exact ⟨(line, url), hmem, by rw [hdl]; rfl⟩
  · intro env text acc sym idx h
    simp only [processUsage]
    split
    · rfl
    · simp only [tryResolveUsage, h]

/-- Witness for C8: one dead reference in the middle of a pass is exactly
the removal of its marker. -/
theorem failure_containment_witness :
    applyDecorations cexDownload ([(1, "g")] ++ (2, "bad") :: [(3, "h")]) =
      applyDecorations cexDownload ([(1, "g")] ++ [(3, "h")]) :=
  failure_containment.1 cexDownload [(1, "g")] [(3, "h")] 2 "bad" (by decide)

/-! ## C2: SVG transform on the specified input -/

/-- C2: on the spec's concrete SVG input with color #112233, the transform
removes every currentColor occurrence, keeps fill=#112233 on the path
element, and injects a 24 by 24 background rectangle as the first child of
the root element (the equality exhibits the exact output). -/
theorem svg_transform_example :
    ∀ (isDark : Bool),
      processSvgContent isDark
          "<svg viewBox=\"0 0 24 24\"><path fill=\"currentColor\"/></svg>" "#112233" =
        "<svg viewBox=\"0 0 24 24\"><rect x=\"0\" y=\"0\" width=\"24\" height=\"24\" fill=\"" ++
          getContrastBackgroundColor isDark ++ "\" rx=\"2\"/><path fill=\"#112233\"/></svg>" ∧
      ciHasSubStr "currentColor"
        (processSvgContent isDark
          "<svg viewBox=\"0 0 24 24\"><path fill=\"currentColor\"/></svg>" "#112233") = false ∧
      hasSubStr "<path fill=\"#112233\"/>"
        (processSvgContent isDark
          "<svg viewBox=\"0 0 24 24\"><path fill=\"currentColor\"/></svg>" "#112233") = true ∧
      hasSubStr "width=\"24\" height=\"24\""
        (processSvgContent isDark
          "<svg viewBox=\"0 0 24 24\"><path fill=\"currentColor\"/></svg>" "#112233") = true := by
  decide

/-! ## C3: the fallback gate does not require the export qualifier -/

/-- Counterexample to C3: a declaration file with no name block and no
export-qualified declaration of Foo (only a bare const Foo) still yields
the generic preview URL, because the source's existence regex makes the
export qualifier optional. -/
theorem fallback_without_export_cex :
    extractPreviewUrl "Foo" "const Foo = 1\n/** @preview https://x/a.svg */" =
        some "https://x/a.svg" ∧
      matchNameBlock "Foo".data "const Foo = 1\n/** @preview https://x/a.svg */".data = none ∧
      exportQualifiedDeclIn "Foo".data
        "const Foo = 1\n/** @preview https://x/a.svg */".data = false := by
  decide

/-- C3 (amended): when the text has no documentation block naming the
symbol and no const/function/class declaration of it (with the export
qualifier optional, as the source's gate actually is), extraction yields
no preview. -/
theorem no_decl_no_preview_amended :
    ∀ (sym defText : String),
      matchNameBlock sym.data defText.data = none →
      symbolExistsIn sym.data defText.data = false →
      extractPreviewUrl sym defText = none := by
  intro sym defText h1 h2
  unfold extractPreviewUrl
  rw [h1, h2]
  simp

/-- Witness for the amended C3 on a file declaring nothing relevant. -/
theorem no_decl_no_preview_amended_witness :
    extractPreviewUrl "Foo" "let x = 1\n/** @preview https://x/a.svg */" = none :=
  no_decl_no_preview_amended "Foo" "let x = 1\n/** @preview https://x/a.svg */"
    (by decide) (by decide)

/-! ## C4: the uppercase filter misses default imports -/

/-- Counterexample to C4: a lowercase default import is retained as a
candidate, because the source applies the uppercase filter only to named
imports. -/
theorem import_scan_keeps_lowercase_default :
    scanImports "import foo from 'm'" = ["foo"] ∧ startsUpper "foo" = false := by
  decide

/-- C4 (amended): every candidate produced by the import scan either
begins with an uppercase letter or is a default-import name; only the
brace-enclosed named imports are filtered by the component-naming
convention. -/
theorem import_scan_uppercase_amended :
    ∀ (text s : String), s ∈ scanImports text → startsUpper s = false →
      s ∈ defaultImportsOf text := by
  intro text s hmem hlow
  unfold scanImports at hmem
  rw [List.mem_flatMap] at hmem
  obtain ⟨caps, hcaps, hs⟩ := hmem
  unfold capsSymbols at hs
  rw [List.mem_append] at hs
  cases hs with
  | inl hdef =>
    unfold defaultImportsOf
    rw [List.mem_flatMap]
    exact ⟨caps, hcaps, hdef⟩
  | inr hnamed =>
    exfalso
    cases hcn : caps.namedImports with
    | none =>
      rw [hcn] at hnamed
      exact absurd hnamed (by simp [namedCandidates])
    | some str =>
      rw [hcn] at hnamed
      unfold namedCandidates at hnamed
      rw [List.mem_filter] at hnamed
      have h2 := hnamed.2
      rw [Bool.and_eq_true] at h2
      rw [hlow] at h2
      exact absurd h2.2 (by simp)

/-- Witness for the amended C4: the lowercase candidate of the
counterexample is indeed a default import. -/
theorem import_scan_uppercase_amended_witness :
    "foo" ∈ defaultImportsOf "import foo from 'm'" :=
  import_scan_uppercase_amended "import foo from 'm'" "foo" (by decide) (by decide)

/-! ## C7: position deduplication -/

/-- Appending one element to a list keeps the filtered length at one or
below, provided the filter is empty whenever the new element satisfies the
predicate. -/
theorem filter_append_singleton_le {α : Type} (p : α → Bool) (acc : List α) (x : α)
    (h : p x = true → acc.filter p = [])
    (hacc : (acc.filter p).length ≤ 1) :
    (((acc ++ [x]).filter p).length ≤ 1) := by
  rw [List.filter_append]
  cases hx : p x with
  | true =>
    rw [h hx]
    simp [List.filter_cons, hx]
  | false =>
    simp only [List.filter_cons, hx, if_neg, List.filter_nil, List.append_nil]
    simpa using hacc

/-- Processing one usage never brings the number of results at any fixed
(line, column) above one: an occurrence whose position is already occupied
is skipped before any lookup. -/
theorem processUsage_dedup_pres (env : ResolveEnv) (text : List Char) (sym : String)
    (idx : Nat) (acc : List SymbolInfo)
    (hinv : ∀ line col,
      ((acc.filter (fun r => r.line == line && r.column == col)).length ≤ 1)) :
    ∀ line col,
      (((processUsage env text acc sym idx).filter
        (fun r => r.line == line && r.column == col)).length ≤ 1) := by
  intro line col
  simp only [processUsage]
  split
  · exact hinv line col
  · next hany =>
    cases h : tryResolveUsage env sym (posAt text (idx + 1)).1 (posAt text (idx + 1)).2 with
    | none => exact hinv line col
    | some url =>
      apply filter_append_singleton_le
      · intro hx
        have hx' : ((posAt text (idx + 1)).1 == line &&
            ((posAt text (idx + 1)).2 + sym.data.length == col)) = true := hx
        rw [Bool.and_eq_true] at hx'
        have hl : (posAt text (idx + 1)).1 = line := eq_of_beq hx'.1
        have hcl : (posAt text (idx + 1)).2 + sym.data.length = col := eq_of_beq hx'.2
        have hanyf : (acc.any fun r => r.line == (posAt text (idx + 1)).1 &&
            r.column == (posAt text (idx + 1)).2 + sym.data.length) = false :=
          Bool.eq_false_iff.mpr hany
        rw [List.filter_eq_nil_iff]
        intro a ha hpred
        have hnot := List.any_eq_false.mp hanyf a ha
        rw [hl, hcl] at hnot
        exact hnot hpred
      · exact hinv line col

/-- C7: the resolver emits at most one result entry per (line, end-column)
position, and exactly one when some entry at that position is emitted at
all; a later occurrence resolving to an occupied position is skipped. -/
theorem dedup_unique_position :
    ∀ (env : ResolveEnv) (text : String) (line col : Nat),
      ((resolveDoc env text).filter
        (fun r => r.line == line && r.column == col)).length ≤ 1 ∧
      ((∃ r, r ∈ resolveDoc env text ∧ r.line = line ∧ r.column = col) →
        ((resolveDoc env text).filter
          (fun r => r.line == line && r.column == col)).length = 1) := by
  intro env text line col
  have hmain : ∀ l c,
      ((resolveDoc env text).filter (fun r => r.line == l && r.column == c)).length ≤ 1 := by
    unfold resolveDoc
    refine foldl_pres
      (P := fun acc : List SymbolInfo => ∀ l c,
        ((acc.filter (fun r => r.line == l && r.column == c)).length ≤ 1)) ?_ _ []
      (by intro l c; simp)
    intro acc sym hacc
    refine foldl_pres
      (P := fun acc2 : List SymbolInfo => ∀ l c,
        ((acc2.filter (fun r => r.line == l && r.column == c)).length ≤ 1)) ?_ _ acc hacc
    intro a i ha
    exact processUsage_dedup_pres env text.data sym i a ha
  refine ⟨hmain line col, ?_⟩
  rintro ⟨r, hr, hl, hc⟩
  have hmem : r ∈ (resolveDoc env text).filter (fun x => x.line == line && x.column == col) :=
    List.mem_filter.2 ⟨hr, by rw [hl, hc]; simp⟩
  have hpos : 0 < ((resolveDoc env text).filter
      (fun x => x.line == line && x.column == col)).length :=
    List.length_pos.2 (List.ne_nil_of_mem hmem)
  have := hmain line col
  omega

/-- Witness for C7: a concrete end-to-end resolution producing exactly one
entry at its position. -/
theorem dedup_unique_position_witness :
    ((resolveDoc cexResolveEnv "import Foo from 'm'\n<Foo/>").filter
      (fun r => r.line == 1 && r.column == 4)).length = 1 :=
  (dedup_unique_position cexResolveEnv "import Foo from 'm'\n<Foo/>" 1 4).2
    ⟨(⟨1, 4, "https://x/a.svg"⟩ : SymbolInfo), by decide, rfl, rfl⟩

/-! ## C1: cache idempotence of the image acquirer -/

/-- Left cancellation of string append. -/
theorem strAppendCancel (a b c : String) (h : a ++ b = a ++ c) : b = c := by
  have hd : a.data ++ b.data = a.data ++ c.data := by
    have := congrArg String.data h
    rwa [String.data_append, String.data_append] at this
  have hbc : b.data = c.data := List.append_cancel_left hd
  cases b
  cases c
  exact congrArg String.mk hbc

/-- The derived SVG and PNG cache paths never coincide. -/
theorem derivedPath_svg_ne_png (env : AcqEnv) (u : String) :
    derivedPath env u ".svg" ≠ derivedPath env u ".png" := by
  intro h
  unfold derivedPath at h
  have := strAppendCancel _ _ _ h
  exact absurd (congrArg String.data this) (by decide)

/-- A remote acquisition that fetched and stored the file at the derived
SVG or PNG path is served from disk by the following call. -/
theorem downloadRemote_second (env : AcqEnv) (net : String → Option FetchResult)
    (fs : FileSys) (u p : String) (fs1 : FileSys)
    (h : downloadRemote env net fs u = (some p, fs1, 1))
    (hp : p = derivedPath env u ".svg" ∨ p = derivedPath env u ".png") :
    downloadRemote env net fs1 u = (some p, fs1, 0) := by
  simp only [downloadRemote] at h ⊢
  by_cases h1 : fsHas fs (derivedPath env u ".svg") = true
  · rw [if_pos h1] at h
    simp at h
  · rw [if_neg h1] at h
    by_cases h2 : fsHas fs (derivedPath env u ".png") = true
    · rw [if_pos h2] at h
      simp at h
    · rw [if_neg h2] at h
      cases hn : net (transformUrl u) with
      | none =>
        rw [hn] at h
        simp at h
      | some fr =>
        rw [hn] at h
        dsimp only at h
        by_cases hc : (hasSubStr "svg" fr.contentType || endsStr ".svg" (transformUrl u) ||
            hasSubStr "<svg" fr.data) = true
        · rw [if_pos hc] at h
          have hps : p = derivedPath env u ".svg" := by
            have := congrArg (fun t : Option String × FileSys × Nat => t.1) h
            simpa using this.symm
          have hfs1 : fs1 = fsWrite fs (derivedPath env u ".svg")
              (processSvgContent env.isDark fr.data env.svgColor) := by
            have := congrArg (fun t : Option String × FileSys × Nat => t.2.1) h
            simpa using this.symm
          have hhit : fsHas fs1 (derivedPath env u ".svg") = true := by
            rw [hfs1]
            simp [fsHas, fsWrite, List.lookup]
          rw [if_pos hhit, hps]
        · rw [if_neg hc] at h
          cases hpu : parseUrl (transformUrl u) with
          | none =>
            rw [hpu] at h
            simp at h
          | some parts =>
            rw [hpu] at h
            dsimp only at h
            have hps : p = derivedPath env u
                (if extname parts.2.2 = "" then ".png" else extname parts.2.2) := by
              have := congrArg (fun t : Option String × FileSys × Nat => t.1) h
              simpa using this.symm
            have hfs1 : fs1 = fsWrite fs (derivedPath env u
                (if extname parts.2.2 = "" then ".png" else extname parts.2.2)) fr.data := by
              have := congrArg (fun t : Option String × FileSys × Nat => t.2.1) h
              simpa using this.symm
            cases hp with
            | inl hsvg =>
              have hhit : fsHas fs1 (derivedPath env u ".svg") = true := by
                rw [hfs1, ← hps, hsvg]
                simp [fsHas, fsWrite, List.lookup]
              rw [if_pos hhit, hsvg]
            | inr hpng =>
              have hmiss : fsHas fs1 (derivedPath env u ".svg") = false := by
                rw [hfs1, ← hps, hpng]
                have hne := derivedPath_svg_ne_png env u
                have hlk : List.lookup (derivedPath env u ".svg") fs = none := by
                  cases hlk2 : List.lookup (derivedPath env u ".svg") fs with
                  | none => rfl
                  | some v =>
                    exfalso
                    apply h1
                    simp [fsHas, hlk2]
                simp [fsHas, fsWrite, List.lookup, hlk,
                  show (derivedPath env u ".svg" == derivedPath env u ".png") = false by
                    simp [hne]]
              rw [if_neg (show ¬(fsHas fs1 (derivedPath env u ".svg") = true) by
                simp [hmiss])]
              have hhit : fsHas fs1 (derivedPath env u ".png") = true := by
                rw [hfs1, ← hps, hpng]
                simp [fsHas, fsWrite, List.lookup]
              rw [if_pos hhit, hpng]

/-- Counterexample to C1: a raster reference whose sniffed extension is
.gif is written outside the probed svg/png paths, so the second call with
the unchanged reference fetches again instead of being served from disk. -/
theorem acquire_refetches_gif_cex :
    (downloadImage cexAcqEnv cexNetGif [] "http://e.com/a.gif").2.2 = 1 ∧
    (downloadImage cexAcqEnv cexNetGif [] "http://e.com/a.gif").1 =
      some "/tmp/icon-preview-cache/h-light.gif" ∧
    (downloadImage cexAcqEnv cexNetGif
      (downloadImage cexAcqEnv cexNetGif [] "http://e.com/a.gif").2.1
      "http://e.com/a.gif").2.2 = 1 := by
  decide

/-- C1 (amended): when the first call fetched once and stored the result
at the derived SVG or PNG cache path, a second call with the unchanged
reference, theme, and configuration performs no fetch and returns that
path from disk; raster payloads stored under any other sniffed extension
are re-fetched because the probe checks only the svg and png paths. -/
theorem acquire_cache_amended :
    ∀ (env : AcqEnv) (net : String → Option FetchResult) (fs : FileSys)
      (u p : String) (fs1 : FileSys),
      downloadImage env net fs u = (some p, fs1, 1) →
      (p = derivedPath env u ".svg" ∨ p = derivedPath env u ".png") →
      downloadImage env net fs1 u = (some p, fs1, 0) := by
  intro env net fs u p fs1 h hp
  unfold downloadImage at h ⊢
  by_cases hd : startsStr "data:image" u = true
  · rw [if_pos hd] at h ⊢
    cases hpd : parseDataImage u with
    | none =>
      rw [hpd] at h
      exact downloadRemote_second env net fs u p fs1 h hp
    | some pr =>
      exfalso
      obtain ⟨m, b⟩ := pr
      rw [hpd] at h
      dsimp only at h
      have h3 := congrArg (fun t : Option String × FileSys × Nat => t.2.2) h
      simp only [apply_ite (fun t : Option String × FileSys × Nat => t.2.2)] at h3
      simp at h3
  · rw [if_neg hd] at h ⊢
    exact downloadRemote_second env net fs u p fs1 h hp

/-- Witness for the amended C1: a fetched SVG is served from disk on the
second call with zero fetches. -/
theorem acquire_cache_amended_witness :
    downloadImage cexAcqEnv cexNetSvg
        ((downloadImage cexAcqEnv cexNetSvg [] "http://e.com/a.svg").2.1)
        "http://e.com/a.svg" =
      (some (derivedPath cexAcqEnv "http://e.com/a.svg" ".svg"),
        (downloadImage cexAcqEnv cexNetSvg [] "http://e.com/a.svg").2.1, 0) :=
  acquire_cache_amended cexAcqEnv cexNetSvg []
    "http://e.com/a.svg" (derivedPath cexAcqEnv "http://e.com/a.svg" ".svg")
    ((downloadImage cexAcqEnv cexNetSvg [] "http://e.com/a.svg").2.1)
    (by decide) (Or.inl rfl)

/-! ## C9: idempotence of URL normalization -/

/-- The characters kept by takeWhile all satisfy the predicate. -/
theorem takeWhile_all {p : Char → Bool} : ∀ l : List Char, (l.takeWhile p).all p = true := by
  intro l
  induction l with
  | nil => rfl
  | cons c cs ih =>
    by_cases h : p c = true
    · simp [List.takeWhile_cons, h, ih]
    · simp [List.takeWhile_cons, h]

/-- A case-insensitive prefix is never longer than the text. -/
theorem ciStartsL_le : ∀ (p t : List Char), ciStartsL p t = true → p.length ≤ t.length := by
  intro p
  induction p with
  | nil => intro t _; simp
  | cons p0 ps ih =>
    intro t h
    cases t with
    | nil => exact absurd h (by simp [ciStartsL])
    | cons t0 ts =>
      simp only [ciStartsL, Bool.and_eq_true] at h
      simp only [List.length_cons]
      exact Nat.succ_le_succ (ih ts h.2)

/-- A case-insensitive prefix matches pointwise. -/
theorem ciStartsL_elem : ∀ (p t : List Char), ciStartsL p t = true →
    ∀ i (hp : i < p.length) (ht : i < t.length),
      ciEq (p.get ⟨i, hp⟩) (t.get ⟨i, ht⟩) = true := by
  intro p
  induction p with
  | nil =>
    intro t _ i hp
    exact absurd hp (by simp)
  | cons p0 ps ih =>
    intro t h i hp ht
    cases t with
    | nil => exact absurd h (by simp [ciStartsL])
    | cons t0 ts =>
      simp only [ciStartsL, Bool.and_eq_true] at h
      cases i with
      | zero => exact h.1
      | succ j => exact ih ts h.2 j (Nat.lt_of_succ_lt_succ hp) (Nat.lt_of_succ_lt_succ ht)

/-- No icon-name character matches a slash, even case-insensitively. -/
theorem slash_not_class (c : Char) (h : isLucideNameChar c = true) : ciEq '/' c = false := by
  simp only [isLucideNameChar, Bool.or_eq_true, Bool.and_eq_true, beq_iff_eq,
    decide_eq_true_eq] at h
  rw [Bool.eq_false_iff]
  intro hc
  simp only [ciEq, isUpperA, Bool.or_eq_true, Bool.and_eq_true, beq_iff_eq,
    decide_eq_true_eq] at hc
  have h47 : ('/' : Char).toNat = 47 := rfl
  rw [h47] at hc
  omega

/-- The capture of a provider-pattern match consists of icon-name
characters. -/
theorem findLucide_class : ∀ (l n : List Char), findLucide l = some n →
    n.all isLucideNameChar = true := by
  intro l
  induction l with
  | nil =>
    intro n h
    exact absurd h (by simp [findLucide])
  | cons c cs ih =>
    intro n h
    rw [findLucide] at h
    cases ht : tryLucideAt (c :: cs) with
    | some cap =>
      rw [ht] at h
      have hcn : cap = n := Option.some.inj h
      unfold tryLucideAt at ht
      split at ht
      · dsimp only at ht
        split at ht
        · exact absurd ht (by simp)
        · have hcap : ((c :: cs).drop lucideLit.length).takeWhile isLucideNameChar = cap :=
            Option.some.inj ht
          rw [← hcn, ← hcap]
          exact takeWhile_all _
      · exact absurd ht (by simp)
    | none =>
      rw [ht] at h
      exact ih n h

/-- A mismatch within the overlap rules out the case-insensitive prefix,
whatever the text continues with. -/
theorem hasMis_not_ciStarts : ∀ (p t r : List Char), hasMisL p t = true →
    ciStartsL p (t ++ r) = false := by
  intro p
  induction p with
  | nil =>
    intro t r h
    exact absurd h (by simp [hasMisL])
  | cons p0 ps ih =>
    intro t r h
    cases t with
    | nil => exact absurd h (by simp [hasMisL])
    | cons t0 ts =>
      simp only [hasMisL, Bool.or_eq_true, Bool.not_eq_true'] at h
      show ciStartsL (p0 :: ps) (t0 :: (ts ++ r)) = false
      simp only [ciStartsL]
      cases h with
      | inl h0 => rw [h0]; rfl
      | inr h1 => rw [ih ts r h1]; simp

/-- When the pattern mismatches inside every nonempty suffix of a prefix
literal, scanning may skip the whole literal. -/
theorem allFail_skip : ∀ (pre r : List Char), allSuffixesFail lucideLit pre = true →
    findLucide (pre ++ r) = findLucide r := by
  intro pre
  induction pre with
  | nil => intro r _; rfl
  | cons c cs ih =>
    intro r h
    simp only [allSuffixesFail, Bool.and_eq_true] at h
    show findLucide (c :: (cs ++ r)) = findLucide r
    rw [findLucide]
    have hci : ciStartsL lucideLit (c :: (cs ++ r)) = false :=
      hasMis_not_ciStarts lucideLit (c :: cs) r h.1
    have htry : tryLucideAt (c :: (cs ++ r)) = none := by
      unfold tryLucideAt
      rw [hci]
      simp
    rw [htry]
    exact ih r h.2

/-- The provider pattern never occurs in an icon name followed by the
.svg suffix: any case-insensitive match would place the pattern's slash at
offset 10, which is neither an icon-name character nor reachable inside
the four-character suffix. -/
theorem lucide_at_name_svg : ∀ (n : List Char), n.all isLucideNameChar = true →
    findLucide (n ++ ".svg".data) = none := by
  intro n
  induction n with
  | nil => intro _; decide
  | cons c cs ih =>
    intro hall
    rw [List.all_cons, Bool.and_eq_true] at hall
    show findLucide (c :: (cs ++ ".svg".data)) = none
    rw [findLucide]
    have hci : ciStartsL lucideLit (c :: (cs ++ ".svg".data)) = false := by
      rw [Bool.eq_false_iff]
      intro hcontra
      have hlen := ciStartsL_le _ _ hcontra
      have hlit : lucideLit.length = 17 := by decide
      rw [hlit] at hlen
      have hsvg4 : (".svg".data).length = 4 := by decide
      have hlen2 : (c :: (cs ++ ".svg".data)).length = cs.length + 5 := by
        simp only [List.length_cons, List.length_append, hsvg4]
      by_cases hcs : 10 < (c :: cs).length
      · have h10p : (10 : Nat) < lucideLit.length := by rw [hlit]; omega
        have h10t : (10 : Nat) < (c :: (cs ++ ".svg".data)).length := by
          rw [hlen2]
          simp only [List.length_cons] at hcs
          omega
        have helem := ciStartsL_elem _ _ hcontra 10 h10p h10t
        have hslash : lucideLit.get ⟨10, h10p⟩ = '/' := rfl
        have hgetin : (c :: (cs ++ ".svg".data)).get ⟨10, h10t⟩ = (c :: cs).get ⟨10, hcs⟩ := by
          show ((c :: cs) ++ ".svg".data).get ⟨10, _⟩ = _
          exact List.get_append 10 hcs
        have hallcc : (c :: cs).all isLucideNameChar = true := by
          rw [List.all_cons, Bool.and_eq_true]
          exact hall
        have hclass : isLucideNameChar ((c :: cs).get ⟨10, hcs⟩) = true :=
          List.all_eq_true.mp hallcc _ (List.get_mem _ _ _)
        rw [hslash, hgetin] at helem
        rw [slash_not_class _ hclass] at helem
        exact Bool.false_ne_true helem
      · simp only [List.length_cons] at hcs
        rw [hlen2] at hlen
        omega
    have htry : tryLucideAt (c :: (cs ++ ".svg".data)) = none := by
      unfold tryLucideAt
      rw [hci]
      simp
    rw [htry]
    exact ih hall.2

/-- C9: transformUrl is idempotent — the rewritten CDN URL never itself
matches the provider icon-page pattern, and unrecognized URLs pass through
unchanged. -/
theorem transformUrl_idempotent :
    ∀ u : String, transformUrl (transformUrl u) = transformUrl u := by
  intro u
  cases hf : findLucide u.data with
  | none =>
    have hu : transformUrl u = u := by
      simp only [transformUrl, hf]
    rw [hu]
    exact hu
  | some n =>
    have hall := findLucide_class u.data n hf
    have hout : transformUrl u =
        "https://unpkg.com/lucide-static@latest/icons/" ++ String.mk n ++ ".svg" := by
      simp only [transformUrl, hf]
    rw [hout]
    have hdata : ("https://unpkg.com/lucide-static@latest/icons/" ++ String.mk n ++ ".svg").data
        = "https://unpkg.com/lucide-static@latest/icons/".data ++ (n ++ ".svg".data) := by
      rw [String.data_append, String.data_append, List.append_assoc]
    have hnone : findLucide
        ("https://unpkg.com/lucide-static@latest/icons/" ++ String.mk n ++ ".svg").data
        = none := by
      rw [hdata, allFail_skip _ _ (by decide)]
      exact lucide_at_name_svg n hall
    simp only [transformUrl, hnone]

end IconPreview
